import Mathlib

/-!
Verification of the Smart Batch Playlist Manager (src/app.py).

This file shallowly embeds the core update engine of the application:
the episode classifier (_process_episodes_for_show), the catalog scanner
(_scan_all_shows), the backlog batcher (_determine_next_backlog_batch),
the orchestrator (run_update_task) and the helper extract_item_id.

Modelling choices, matching the Python source:
- A Spotify episode dict becomes the Episode structure.  The parsed
  release datetime is modelled as an integer instant (release_ts); the
  source only ever compares these values with a strict order.  The
  resume_point.fully_played lookup (with its missing-key default False)
  collapses to the Bool field fully_played.  duration_ms is a Nat, since
  the upstream API reports non-negative millisecond durations, and
  Python floor division on non-negatives is Nat division.
- Python dicts used as string-to-string maps (show_progress,
  completed_shows) become association lists with first-match lookup and
  in-place update, which preserves the dict key semantics used here.
- A paginated episode feed becomes a list of pages; each page is a list
  of Option Episode so that null entries of the upstream API are
  representable.  Accessing a field of a null entry is the error case.
- The state file on disk is tracked explicitly: the scanner carries the
  last persisted snapshot (written by the intermediary _save_state call
  every 10 shows), and a failed run returns that snapshot.
- Playlist mutation calls are recorded as a list of actions instead of
  being performed; the orchestrator's job-status calls are pure
  reporting and are not modelled.
-/

/-- An episode as consumed from the catalog API (src/app.py fields:
id, name, release_date (parsed), duration_ms, resume_point.fully_played,
uri). -/
structure Episode where
  id : String
  name : String
  release_ts : Int
  duration_ms : Nat
  fully_played : Bool
  uri : String
deriving DecidableEq

/-- A saved show together with its episode feed, newest first, as the
paginated sp.show_episodes stream delivers it. -/
structure Show where
  id : String
  name : String
  total_episodes : Nat
  pages : List (List (Option Episode))
deriving DecidableEq

/-- The persisted per-user state manipulated by run_update_task.
last_batch_info is purely informational in the source and is omitted. -/
structure UserState where
  last_update_ts : Int
  show_progress : List (String × String)
  completed_shows : List (String × String)
  current_minute : Int
deriving DecidableEq

/-- Python dict lookup (first matching key). -/
def lookupA (m : List (String × String)) (k : String) : Option String :=
  match m.find? (fun p => p.1 == k) with
  | some p => some p.2
  | none => none

/-- Python dict assignment: replace the binding of k in place, or append
a new binding. -/
def updateA (m : List (String × String)) (k v : String) : List (String × String) :=
  match m with
  | [] => [(k, v)]
  | p :: rest => if p.1 == k then (k, v) :: rest else p :: updateA rest k v

/-- BLOCKLIST_KEYWORDS from src/app.py line 25. -/
def BLOCKLIST_KEYWORDS : List String :=
  ["trailer", "bonus:", "replay:", "announcement", "preview"]

/-- ASCII lower-casing of one character, the fragment of Python
str.lower relevant to the ASCII blocklist keywords. -/
def charLower (c : Char) : Char :=
  if 'A' ≤ c ∧ c ≤ 'Z' then Char.ofNat (c.toNat + 32) else c

/-- Python s.lower(), restricted to ASCII case mapping. -/
def lowerStr (s : String) : String :=
  String.mk (s.data.map charLower)

/-- Python substring test: pat in hay. -/
def isSubstrOf (pat : List Char) : List Char → Bool
  | [] => pat.isEmpty
  | c :: rest => pat.isPrefixOf (c :: rest) || isSubstrOf pat rest

/-- The blocklist test of src/app.py line 244:
any(keyword in episode.name.lower() for keyword in BLOCKLIST_KEYWORDS). -/
def isBlocklisted (name : String) : Bool :=
  BLOCKLIST_KEYWORDS.any (fun k => isSubstrOf k.data (lowerStr name).data)

/-- Whether a feed item triggers the high-water-mark break of line 237:
a non-null episode whose id equals the stored last-seen id.  (Comparing
against an absent mark, i.e. Python None, is never true.) -/
def isMark (lastSeen : Option String) (it : Option Episode) : Bool :=
  match it with
  | some ep => lastSeen == some ep.id
  | none => false

/-- The filter of lines 241-244 as a partial map: a feed item survives
when it is non-null, not fully played and not blocklisted. -/
def keepItem (it : Option Episode) : Option Episode :=
  match it with
  | some ep =>
    if ep.fully_played then none
    else if isBlocklisted ep.name then none
    else some ep
  | none => none

/-- The inner for-loop of _process_episodes_for_show (lines 236-248) on
one page.  The Bool result is the should_break flag.  A null entry
raises (episode['id'] on None), which is the error case. -/
def processPage (lastSeen : Option String) :
    List (Option Episode) → List Episode → Nat → Except Unit (List Episode × Nat × Bool)
  | [], acc, cnt => .ok (acc, cnt, false)
  | none :: _, _, _ => .error ()
  | some ep :: rest, acc, cnt =>
    if lastSeen == some ep.id then .ok (acc, cnt, true)
    else if ep.fully_played then processPage lastSeen rest acc cnt
    else if isBlocklisted ep.name then processPage lastSeen rest acc cnt
    else processPage lastSeen rest (acc ++ [ep]) (cnt + 1)

/-- The while-loop of _process_episodes_for_show (lines 234-253) over
the paginated feed. -/
def processPagesAux (lastSeen : Option String) :
    List (List (Option Episode)) → List Episode → Nat → Except Unit (List Episode × Nat)
  | [], acc, cnt => .ok (acc, cnt)
  | page :: rest, acc, cnt =>
    match processPage lastSeen page acc cnt with
    | .error e => .error e
    | .ok (acc', cnt', true) => .ok (acc', cnt')
    | .ok (acc', cnt', false) => processPagesAux lastSeen rest acc' cnt'

/-- The same traversal on the flattened feed; page boundaries do not
change the control flow, which is proved below and used in proofs. -/
def processFlatAux (lastSeen : Option String) :
    List (Option Episode) → List Episode → Nat → Except Unit (List Episode × Nat)
  | [], acc, cnt => .ok (acc, cnt)
  | none :: _, _, _ => .error ()
  | some ep :: rest, acc, cnt =>
    if lastSeen == some ep.id then .ok (acc, cnt)
    else if ep.fully_played then processFlatAux lastSeen rest acc cnt
    else if isBlocklisted ep.name then processFlatAux lastSeen rest acc cnt
    else processFlatAux lastSeen rest (acc ++ [ep]) (cnt + 1)

/-- _process_episodes_for_show (lines 223-259): scan one show's feed,
returning the newly found episodes, the unplayed count, and the state
with the show's high-water mark updated (lines 255-257: only when the
result list is non-empty, to the id of its first element). -/
def processEpisodesForShow (showId : String) (pages : List (List (Option Episode)))
    (st : UserState) : Except Unit (List Episode × Nat × UserState) :=
  let lastSeen := lookupA st.show_progress showId
  match processPagesAux lastSeen pages [] 0 with
  | .error e => .error e
  | .ok (found, cnt) =>
    let st' :=
      match found.head? with
      | some ep => { st with show_progress := updateA st.show_progress showId ep.id }
      | none => st
    .ok (found, cnt, st')

/-- Duration bucket of line 271: ep.duration_ms // 60000. -/
def bucketOf (ep : Episode) : Nat :=
  ep.duration_ms / 60000

/-- sorted(backlog_by_minute.keys()) of line 274: the distinct duration
buckets in ascending order. -/
def sortedBuckets (backlog : List Episode) : List Nat :=
  List.insertionSort (· ≤ ·) ((backlog.map bucketOf).dedup)

/-- Lines 276-284: first bucket strictly above the cursor, else wrap to
the smallest bucket.  The -1 sentinel of the source cannot collide with
a bucket value, since buckets are non-negative. -/
def selectMinute (bs : List Nat) (lastMinuteProcessed : Int) : Nat :=
  match bs.find? (fun (m : Nat) => decide (lastMinuteProcessed < (m : Int))) with
  | some m => m
  | none => bs.headD 0

/-- _determine_next_backlog_batch (lines 262-286). -/
def determineNextBacklogBatch (backlog : List Episode) (lastMinuteProcessed : Int) :
    List Episode × Int :=
  match backlog with
  | [] => ([], -1)
  | _ :: _ =>
    let nextMinute := selectMinute (sortedBuckets backlog) lastMinuteProcessed
    (backlog.filter (fun ep => bucketOf ep == nextMinute), (nextMinute : Int))

/-- Iterating the batcher on a fixed backlog, feeding each returned
next_minute back in as the next cursor. -/
def batchIter (backlog : List Episode) (start : Int) : Nat → Int
  | 0 => (determineNextBacklogBatch backlog start).2
  | k + 1 => (determineNextBacklogBatch backlog (batchIter backlog start k)).2

/-- Cyclic read of a sorted bucket list, used to describe the orbit of
the batcher's round-robin cursor. -/
def cyc (bs : List Nat) (j : Nat) : Nat :=
  (bs[j % bs.length]?).getD 0

/-- m is a duration bucket of some episode of the backlog. -/
def isBucketOf (backlog : List Episode) (m : Nat) : Prop :=
  ∃ ep ∈ backlog, bucketOf ep = m

/-- The batcher contract as the specification states it (bucket value of
the result, selection rule, and batch contents); used for the
refinement statement about determineNextBacklogBatch. -/
def NextBatchSpec (backlog : List Episode) (lm : Int) (out : List Episode × Int) : Prop :=
  ∃ nm : Nat,
    out.2 = (nm : Int) ∧
    out.1 = backlog.filter (fun ep => bucketOf ep == nm) ∧
    isBucketOf backlog nm ∧
    ((∃ m : Nat, isBucketOf backlog m ∧ lm < (m : Int)) →
      lm < (nm : Int) ∧ ∀ m : Nat, isBucketOf backlog m → lm < (m : Int) → nm ≤ m) ∧
    ((¬ ∃ m : Nat, isBucketOf backlog m ∧ lm < (m : Int)) →
      ∀ m : Nat, isBucketOf backlog m → nm ≤ m)

/-- Lines 206-207: after the classifier ran, a show with zero unplayed
episodes found and a positive total episode count is marked completed. -/
def scanStepState (s : Show) (st1 : UserState) (cnt : Nat) : UserState :=
  if cnt = 0 ∧ 0 < s.total_episodes then
    { st1 with completed_shows := updateA st1.completed_shows s.id s.name }
  else st1

/-- The for-show loop of _scan_all_shows (lines 188-220).  i is the
enumeration index; pers is the state snapshot last written to disk (the
intermediary _save_state of lines 216-218 writes every 10th processed
show).  A classifier error aborts the loop, leaving pers on disk. -/
def scanAllShowsAux (lu : Int) :
    List Show → Nat → UserState → UserState → List Episode → List Episode →
    Except UserState (List Episode × List Episode × UserState × UserState)
  | [], _, st, pers, prio, back => .ok (prio, back, st, pers)
  | s :: rest, i, st, pers, prio, back =>
    if (lookupA st.completed_shows s.id).isSome then
      scanAllShowsAux lu rest (i + 1) st pers prio back
    else
      match processEpisodesForShow s.id s.pages st with
      | .error _ => .error pers
      | .ok (found, cnt, st1) =>
        scanAllShowsAux lu rest (i + 1) (scanStepState s st1 cnt)
          (if i % 10 = 0 then scanStepState s st1 cnt else pers)
          (prio ++ found.filter (fun ep => decide (lu < ep.release_ts)))
          (back ++ found.filter (fun ep => !decide (lu < ep.release_ts)))

/-- _scan_all_shows: both the in-memory state and the on-disk snapshot
start as the pre-run state. -/
def scanAllShows (shows : List Show) (st : UserState) (lu : Int) :
    Except UserState (List Episode × List Episode × UserState × UserState) :=
  scanAllShowsAux lu shows 0 st st [] []

/-- The concatenation of the classifier's returned lists over the scan,
along the same state trajectory as scanAllShowsAux (same completed-show
skip, same per-show state update); the error branch is unreachable on
runs where the scan succeeds.  This observation function ties the
priority/backlog split to exactly the episodes the classifier
returned. -/
def classifiedEpisodesAux : List Show → UserState → List Episode
  | [], _ => []
  | s :: rest, st =>
    if (lookupA st.completed_shows s.id).isSome then classifiedEpisodesAux rest st
    else
      match processEpisodesForShow s.id s.pages st with
      | .error _ => []
      | .ok (found, cnt, st1) =>
        found ++ classifiedEpisodesAux rest (scanStepState s st1 cnt)

/-- The episodes classified by a full scan. -/
def classifiedEpisodes (shows : List Show) (st : UserState) : List Episode :=
  classifiedEpisodesAux shows st

/-- Priority episodes are ordered ascending by duration before being
written to the playlist (line 148); Python sorted is a stable sort by
the duration key. -/
def durLE (a b : Episode) : Prop :=
  a.duration_ms ≤ b.duration_ms

instance : DecidableRel durLE :=
  fun a b => Nat.decLe a.duration_ms b.duration_ms

def sortByDuration (eps : List Episode) : List Episode :=
  List.insertionSort durLE eps

/-- A playlist mutation call issued by the orchestrator. -/
inductive PAction where
  | clear : PAction
  | add : List String → PAction
deriving DecidableEq

/-- Terminal result of a run: the early return when no shows are saved
(nothing persisted), success (actions issued, final state persisted),
or failure (the caught exception path; the argument is what the state
file holds at that point). -/
inductive RunOutcome where
  | noShows : RunOutcome
  | success : List PAction → UserState → RunOutcome
  | failure : UserState → RunOutcome
deriving DecidableEq

/-- The chunked playlist_add_items loop of lines 155-156. -/
def chunks100 (l : List String) : List (List String) :=
  if h : l = [] then []
  else l.take 100 :: chunks100 (l.drop 100)
termination_by l.length
decreasing_by
  have hl : l.length ≠ 0 := by simpa [List.length_eq_zero] using h
  simp [List.length_drop]
  omega

/-- run_update_task (lines 118-176): scan, batch, mutate the playlist
(clear then chunked appends, skipped entirely when there is nothing to
add, lines 153-156), then persist the updated cursor and timestamp
(lines 158-168).  The exception handler persists nothing further. -/
def runUpdateTask (shows : List Show) (state0 : UserState) (now : Int) : RunOutcome :=
  match shows with
  | [] => .noShows
  | _ :: _ =>
    match scanAllShows shows state0 state0.last_update_ts with
    | .error pers => .failure pers
    | .ok (prio, back, st1, _pers) =>
      let pair := determineNextBacklogBatch back st1.current_minute
      let uris := (sortByDuration prio).map Episode.uri ++ pair.1.map Episode.uri
      let actions :=
        if uris.isEmpty then ([] : List PAction)
        else PAction.clear :: (chunks100 uris).map PAction.add
      .success actions { st1 with current_minute := pair.2, last_update_ts := now }

/-- The character class [a-zA-Z0-9] of the regexes in extract_item_id. -/
def isAlnumChar (c : Char) : Bool :=
  ('a' ≤ c && c ≤ 'z') || ('A' ≤ c && c ≤ 'Z') || ('0' ≤ c && c ≤ '9')

/-- The alternation (playlist|show|episode) of the search regex. -/
def ALT_WORDS : List (List Char) :=
  ["playlist".data, "show".data, "episode".data]

/-- At the current position, match one alternation word followed by a
slash, returning the remainder of the text. -/
def matchAltAt (cs : List Char) : Option (List Char) :=
  match ALT_WORDS.find? (fun w => (w ++ ['/']).isPrefixOf cs) with
  | some w => some (cs.drop (w.length + 1))
  | none => none

/-- re.search of line 107: leftmost position where an alternation word,
a slash and a non-empty greedy alphanumeric run match; the returned
string is capture group 2. -/
def searchGroup2 : List Char → Option String
  | [] => none
  | c :: rest =>
    match matchAltAt (c :: rest) with
    | some rem =>
      let idrun := rem.takeWhile isAlnumChar
      if idrun.isEmpty then searchGroup2 rest else some (String.mk idrun)
    | none => searchGroup2 rest

/-- Whether the search regex matches at exactly this position. -/
def segAt (cs : List Char) : Bool :=
  match matchAltAt cs with
  | some rem => !(rem.takeWhile isAlnumChar).isEmpty
  | none => false

/-- The characters removed by Python str.strip(): the CPython Unicode
whitespace set (code points 9-13, 28-31, 32, 133, 160, 5760, 8192-8202,
8232, 8233, 8239, 8287 and 12288, i.e. the characters with
bidirectional class WS, B or S or general category Zs). -/
def pyWhitespace (c : Char) : Bool :=
  (9 ≤ c.toNat && c.toNat ≤ 13) || c.toNat == 32 ||
  (28 ≤ c.toNat && c.toNat ≤ 31) || c.toNat == 133 ||
  c.toNat == 160 || c.toNat == 5760 ||
  (8192 ≤ c.toNat && c.toNat ≤ 8202) || c.toNat == 8232 ||
  c.toNat == 8233 || c.toNat == 8239 || c.toNat == 8287 || c.toNat == 12288

/-- Python text.strip(). -/
def pyStrip (cs : List Char) : List Char :=
  ((cs.dropWhile pyWhitespace).reverse.dropWhile pyWhitespace).reverse

/-- extract_item_id (lines 105-112). -/
def extract_item_id (text : String) : Option String :=
  match searchGroup2 text.data with
  | some g2 => some g2
  | none =>
    let t := pyStrip text.data
    if !t.isEmpty && t.all isAlnumChar then some (String.mk t) else none

/-! Concrete data used by counterexamples and witnesses. -/

/-- The roughly-two-minute episode of the specification scenarios. -/
def epA : Episode :=
  { id := "a", name := "Alpha", release_ts := 0, duration_ms := 125000,
    fully_played := false, uri := "spotify:episode:a" }

/-- The roughly-three-minute episode of the specification scenarios. -/
def epB : Episode :=
  { id := "b", name := "Beta", release_ts := 0, duration_ms := 185000,
    fully_played := false, uri := "spotify:episode:b" }

/-- An ordinary unplayed episode. -/
def epOne : Episode :=
  { id := "e1", name := "Episode One", release_ts := 5, duration_ms := 125000,
    fully_played := false, uri := "spotify:episode:e1" }

/-- An episode whose title hits the blocklist keyword trailer. -/
def epTrailer : Episode :=
  { id := "t", name := "Trailer: coming soon", release_ts := 5, duration_ms := 60000,
    fully_played := false, uri := "spotify:episode:t" }

/-- A fresh user state. -/
def stEmpty : UserState :=
  { last_update_ts := 0, show_progress := [], completed_shows := [], current_minute := -1 }

/-- The state after the scanner has recorded epOne as the high-water
mark of show s1. -/
def stS1 : UserState :=
  { last_update_ts := 0, show_progress := [("s1", "e1")], completed_shows := [],
    current_minute := -1 }

/-- A show whose feed delivers the single unplayed episode epOne. -/
def showOne : Show :=
  { id := "s1", name := "Show One", total_episodes := 3, pages := [[some epOne]] }

/-- A show whose feed page contains a null entry. -/
def showBad : Show :=
  { id := "s2", name := "Show Two", total_episodes := 3, pages := [[none]] }

/-- A show whose only episode is blocklisted. -/
def showTrailerOnly : Show :=
  { id := "s3", name := "Show Three", total_episodes := 1, pages := [[some epTrailer]] }

/-- The state after scanning showTrailerOnly: the show is marked as
completed, nothing else changes. -/
def stCompleted : UserState :=
  { last_update_ts := 0, show_progress := [], completed_shows := [("s3", "Show Three")],
    current_minute := -1 }

deriving instance DecidableEq for Except

/-! Lemmas about the backlog batcher. -/

theorem dNBB_cons (a : Episode) (l : List Episode) (lm : Int) :
    determineNextBacklogBatch (a :: l) lm =
      ((a :: l).filter (fun ep => bucketOf ep == selectMinute (sortedBuckets (a :: l)) lm),
       (selectMinute (sortedBuckets (a :: l)) lm : Int)) := rfl

theorem sortedBuckets_sorted (backlog : List Episode) :
    List.Sorted (· ≤ ·) (sortedBuckets backlog) :=
  List.sorted_insertionSort _ _

theorem sortedBuckets_nodup (backlog : List Episode) : (sortedBuckets backlog).Nodup :=
  ((List.perm_insertionSort _ _).nodup_iff).mpr (List.nodup_dedup _)

theorem mem_sortedBuckets {backlog : List Episode} {m : Nat} :
    m ∈ sortedBuckets backlog ↔ isBucketOf backlog m := by
  unfold sortedBuckets isBucketOf
  rw [(List.perm_insertionSort _ _).mem_iff, List.mem_dedup, List.mem_map]

theorem sortedBuckets_ne_nil {backlog : List Episode} (h : backlog ≠ []) :
    sortedBuckets backlog ≠ [] := by
  cases backlog with
  | nil => exact absurd rfl h
  | cons a l =>
    exact List.ne_nil_of_mem (mem_sortedBuckets.mpr ⟨a, List.mem_cons_self a l, rfl⟩)

theorem find_gt_sorted {bs : List Nat} (hs : List.Sorted (· ≤ ·) bs) {lm : Int} {m : Nat}
    (h : bs.find? (fun (x : Nat) => decide (lm < (x : Int))) = some m) :
    m ∈ bs ∧ lm < (m : Int) ∧ ∀ b ∈ bs, lm < (b : Int) → m ≤ b := by
  induction bs with
  | nil => simp at h
  | cons a t ih =>
    by_cases ha : lm < (a : Int)
    · rw [List.find?_cons_of_pos _ (by simpa using ha)] at h
      have hm : a = m := by injection h
      subst hm
      refine ⟨List.mem_cons_self _ _, ha, ?_⟩
      intro b hb _
      rcases List.mem_cons.mp hb with hb' | hb'
      · exact le_of_eq hb'.symm
      · exact List.rel_of_sorted_cons hs b hb'
    · rw [List.find?_cons_of_neg _ (by simpa using ha)] at h
      obtain ⟨hm, hlt, hmin⟩ := ih hs.of_cons h
      refine ⟨List.mem_cons_of_mem _ hm, hlt, ?_⟩
      intro b hb hbl
      rcases List.mem_cons.mp hb with hb' | hb'
      · exact absurd (hb' ▸ hbl) ha
      · exact hmin b hb' hbl

theorem headD_min_sorted {bs : List Nat} (hs : List.Sorted (· ≤ ·) bs) :
    ∀ b ∈ bs, bs.headD 0 ≤ b := by
  cases bs with
  | nil => intro b hb; simp at hb
  | cons a t =>
    intro b hb
    rcases List.mem_cons.mp hb with hb' | hb'
    · simp [hb']
    · simpa using List.rel_of_sorted_cons hs b hb'

theorem headD_mem {bs : List Nat} (h : bs ≠ []) : bs.headD 0 ∈ bs := by
  cases bs with
  | nil => exact absurd rfl h
  | cons a t => exact List.mem_cons_self _ _

theorem selectMinute_of_find_some {bs : List Nat} {lm : Int} {m : Nat}
    (h : bs.find? (fun (x : Nat) => decide (lm < (x : Int))) = some m) :
    selectMinute bs lm = m := by
  unfold selectMinute
  rw [h]

theorem selectMinute_of_find_none {bs : List Nat} {lm : Int}
    (h : bs.find? (fun (x : Nat) => decide (lm < (x : Int))) = none) :
    selectMinute bs lm = bs.headD 0 := by
  unfold selectMinute
  rw [h]

theorem selectMinute_mem {bs : List Nat} (h : bs ≠ []) (lm : Int) :
    selectMinute bs lm ∈ bs := by
  unfold selectMinute
  cases hf : bs.find? (fun (x : Nat) => decide (lm < (x : Int))) with
  | some m => exact List.mem_of_find?_eq_some hf
  | none => exact headD_mem h

/-- C1: for every non-empty backlog and every integer cursor, the
batcher groups episodes by duration bucket (duration_ms / 60000),
selects the smallest bucket strictly greater than the cursor if one
exists and otherwise wraps to the smallest bucket overall, and returns
exactly the episodes of the selected bucket in their original relative
order together with that bucket value. -/
theorem batcher_selects_next_bucket (backlog : List Episode) (lm : Int)
    (h : backlog ≠ []) :
    NextBatchSpec backlog lm (determineNextBacklogBatch backlog lm) := by
  obtain ⟨a, l, rfl⟩ : ∃ a l, backlog = a :: l := by
    cases backlog with
    | nil => exact absurd rfl h
    | cons a l => exact ⟨a, l, rfl⟩
  rw [dNBB_cons]
  refine ⟨selectMinute (sortedBuckets (a :: l)) lm, rfl, rfl, ?_, ?_, ?_⟩
  · exact mem_sortedBuckets.mp (selectMinute_mem (sortedBuckets_ne_nil h) lm)
  · rintro ⟨m, hm, hlt⟩
    have hmem : m ∈ sortedBuckets (a :: l) := mem_sortedBuckets.mpr hm
    cases hf : (sortedBuckets (a :: l)).find? (fun (x : Nat) => decide (lm < (x : Int))) with
    | none =>
      exact absurd hlt (by simpa using List.find?_eq_none.mp hf m hmem)
    | some m0 =>
      rw [selectMinute_of_find_some hf]
      obtain ⟨_, h2, h3⟩ := find_gt_sorted (sortedBuckets_sorted _) hf
      exact ⟨h2, fun m' hm' hlt' => h3 m' (mem_sortedBuckets.mpr hm') hlt'⟩
  · intro hno
    cases hf : (sortedBuckets (a :: l)).find? (fun (x : Nat) => decide (lm < (x : Int))) with
    | some m0 =>
      obtain ⟨h1, h2, _⟩ := find_gt_sorted (sortedBuckets_sorted _) hf
      exact absurd ⟨m0, mem_sortedBuckets.mp h1, h2⟩ hno
    | none =>
      rw [selectMinute_of_find_none hf]
      intro m hm
      exact headD_min_sorted (sortedBuckets_sorted _) m (mem_sortedBuckets.mpr hm)

/-- Witness for C1 at the specification's scenario backlog with cursor 2. -/
theorem batcher_selects_next_bucket_witness :
    ([epA, epB] : List Episode) ≠ [] ∧
    NextBatchSpec [epA, epB] 2 (determineNextBacklogBatch [epA, epB] 2) :=
  ⟨by decide, batcher_selects_next_bucket [epA, epB] 2 (by decide)⟩

/-- C2 counterexample: the batcher of the source has no minimum-duration
parameter or filter.  On the scenario backlog (a two-minute and a
three-minute episode) the two-minute episode epA, whose bucket 2 is
below the supposed min_duration of 3, is returned by the very first
call; and on a backlog whose only episode has bucket 2, the batcher
still returns that episode rather than the empty sentinel. -/
theorem batcher_min_duration_cex :
    determineNextBacklogBatch [epA, epB] (-1) = ([epA], 2) ∧
    bucketOf epA = 2 ∧
    determineNextBacklogBatch [epA] 5 = ([epA], 2) := by
  decide

/-- C2 amended: the batcher applies no minimum-duration filter.  It
returns the empty sentinel if and only if the backlog list itself is
empty, and every backlog episode, whatever its duration bucket, is
surfaced by the call whose cursor sits just below that bucket. -/
theorem batcher_no_min_duration :
    (∀ (backlog : List Episode) (lm : Int),
       determineNextBacklogBatch backlog lm = ([], -1) ↔ backlog = []) ∧
    (∀ (backlog : List Episode) (ep : Episode), ep ∈ backlog →
       ep ∈ (determineNextBacklogBatch backlog ((bucketOf ep : Int) - 1)).1) := by
  constructor
  · intro backlog lm
    constructor
    · intro h
      by_contra hne
      obtain ⟨a, l, rfl⟩ : ∃ a l, backlog = a :: l := by
        cases backlog with
        | nil => exact absurd rfl hne
        | cons a l => exact ⟨a, l, rfl⟩
      have h2 := congrArg Prod.snd h
      rw [dNBB_cons] at h2
      simp at h2
    · rintro rfl
      rfl
  · intro backlog ep hep
    obtain ⟨a, l, rfl⟩ : ∃ a l, backlog = a :: l := by
      cases backlog with
      | nil => simp at hep
      | cons a l => exact ⟨a, l, rfl⟩
    have hmem : bucketOf ep ∈ sortedBuckets (a :: l) :=
      mem_sortedBuckets.mpr ⟨ep, hep, rfl⟩
    have hsel : selectMinute (sortedBuckets (a :: l)) ((bucketOf ep : Int) - 1) = bucketOf ep := by
      cases hf : (sortedBuckets (a :: l)).find?
          (fun (x : Nat) => decide ((bucketOf ep : Int) - 1 < (x : Int))) with
      | none =>
        have := List.find?_eq_none.mp hf (bucketOf ep) hmem
        simp at this
      | some m0 =>
        rw [selectMinute_of_find_some hf]
        obtain ⟨_, hlt, hmin⟩ := find_gt_sorted (sortedBuckets_sorted _) hf
        have h1 : m0 ≤ bucketOf ep := hmin _ hmem (by omega)
        omega
    rw [dNBB_cons, hsel]
    simp [List.mem_filter, hep]

/-- Witness for C2's amended statement: the empty-backlog direction and
the surfacing of the two-minute episode epA. -/
theorem batcher_no_min_duration_witness :
    determineNextBacklogBatch [] 0 = ([], -1) ∧
    epA ∈ (determineNextBacklogBatch [epA, epB] ((bucketOf epA : Int) - 1)).1 :=
  ⟨(batcher_no_min_duration.1 [] 0).mpr rfl,
   batcher_no_min_duration.2 [epA, epB] epA (by decide)⟩

/-! Lemmas for the round-robin rotation of the batcher. -/

theorem sorted_getElem_le {bs : List Nat} (hs : List.Sorted (· ≤ ·) bs)
    {i j : Nat} (hi : i < bs.length) (hj : j < bs.length) (hij : i ≤ j) :
    bs[i] ≤ bs[j] := by
  rcases Nat.lt_or_ge i j with hlt | hge
  · have := hs.rel_get_of_lt (a := ⟨i, hi⟩) (b := ⟨j, hj⟩) (by simpa [Fin.mk_lt_mk] using hlt)
    simpa using this
  · have hij' : i = j := by omega
    subst hij'
    exact le_refl _

theorem sorted_nodup_getElem_lt {bs : List Nat} (hs : List.Sorted (· ≤ ·) bs)
    (hn : bs.Nodup) {i j : Nat} (hi : i < bs.length) (hj : j < bs.length) (hij : i < j) :
    bs[i] < bs[j] := by
  have hle : bs[i] ≤ bs[j] := sorted_getElem_le hs hi hj (le_of_lt hij)
  have hne : bs[i] ≠ bs[j] := by
    intro he
    have := (List.Nodup.getElem_inj_iff hn).mp he
    omega
  omega

theorem find?_split {α : Type} (p : α → Bool) (l1 : List α) (a : α) (l2 : List α)
    (h1 : ∀ x ∈ l1, p x = false) (h2 : p a = true) :
    (l1 ++ a :: l2).find? p = some a := by
  induction l1 with
  | nil => simpa using List.find?_cons_of_pos l2 h2
  | cons x xs ih =>
    have hx : p x = false := h1 x (List.mem_cons_self _ _)
    rw [List.cons_append, List.find?_cons_of_neg _ (by simp [hx])]
    exact ih (fun y hy => h1 y (List.mem_cons_of_mem _ hy))

theorem getElem_of_mem_take {α : Type} {l : List α} {k : Nat} {x : α} (h : x ∈ l.take k) :
    ∃ j, ∃ hj : j < l.length, j < k ∧ l[j] = x := by
  obtain ⟨j, hj, hx⟩ := List.getElem_of_mem h
  have hj' : j < k ∧ j < l.length := by
    rw [List.length_take] at hj
    exact ⟨lt_of_lt_of_le hj (min_le_left _ _), lt_of_lt_of_le hj (min_le_right _ _)⟩
  refine ⟨j, hj'.2, hj'.1, ?_⟩
  rw [List.getElem_take] at hx
  exact hx

theorem cyc_eq_getElem {bs : List Nat} (h : bs ≠ []) (j : Nat) :
    ∃ hj : j % bs.length < bs.length, cyc bs j = bs[j % bs.length] := by
  have hl : 0 < bs.length := List.length_pos.mpr h
  have hj : j % bs.length < bs.length := Nat.mod_lt _ hl
  refine ⟨hj, ?_⟩
  unfold cyc
  rw [List.getElem?_eq_getElem hj]
  rfl

theorem cyc_mem {bs : List Nat} (h : bs ≠ []) (j : Nat) : cyc bs j ∈ bs := by
  obtain ⟨hj, he⟩ := cyc_eq_getElem h j
  rw [he]
  exact List.getElem_mem hj

theorem getElem_idx_congr {α : Type} {l : List α} {i k : Nat} (h : i = k)
    (hi : i < l.length) (hk : k < l.length) : l[i] = l[k] := by
  subst h
  rfl

theorem cyc_succ {bs : List Nat} (hs : List.Sorted (· ≤ ·) bs) (hn : bs.Nodup)
    (h : bs ≠ []) (j : Nat) :
    selectMinute bs ((cyc bs j : Nat) : Int) = cyc bs (j + 1) := by
  have hl : 0 < bs.length := List.length_pos.mpr h
  obtain ⟨hj, hcj⟩ := cyc_eq_getElem h j
  obtain ⟨hj1, hcj1⟩ := cyc_eq_getElem h (j + 1)
  have hmod : (j + 1) % bs.length = (j % bs.length + 1) % bs.length := by
    rw [Nat.mod_add_mod]
  by_cases hlast : j % bs.length + 1 = bs.length
  · have hfind : bs.find?
        (fun (x : Nat) => decide (((bs[j % bs.length] : Nat) : Int) < (x : Int))) = none := by
      rw [List.find?_eq_none]
      intro x hx
      obtain ⟨k, hk, hkx⟩ := List.getElem_of_mem hx
      rw [← hkx]
      simp only [decide_eq_true_eq, not_lt]
      exact_mod_cast sorted_getElem_le hs hk hj (by omega)
    rw [hcj, selectMinute_of_find_none hfind, hcj1]
    have hidx : (j + 1) % bs.length = 0 := by rw [hmod, hlast, Nat.mod_self]
    have hgoal : bs[(j + 1) % bs.length] = bs.headD 0 := by
      cases bs with
      | nil => simp at hl
      | cons a t =>
        rw [List.headD_cons]
        calc (a :: t)[(j + 1) % (a :: t).length] = (a :: t)[0] :=
              getElem_idx_congr hidx hj1 (by simp)
          _ = a := List.getElem_cons_zero _ _ _
    exact hgoal.symm
  · have hin1 : j % bs.length + 1 < bs.length := by omega
    have hsplit : bs.take (j % bs.length + 1) ++
        bs[j % bs.length + 1] :: bs.drop (j % bs.length + 2) = bs := by
      rw [← List.drop_eq_getElem_cons hin1, List.take_append_drop]
    have hgen : ∀ v : Nat, v = bs[j % bs.length] →
        bs.find? (fun (x : Nat) => decide ((v : Int) < (x : Int)))
          = some bs[j % bs.length + 1] := by
      intro v hv
      conv_lhs => rw [← hsplit]
      refine find?_split _ _ _ _ ?_ ?_
      · intro x hx
        obtain ⟨k, hkl, hkk, hkx⟩ := getElem_of_mem_take hx
        rw [← hkx, hv]
        simp only [decide_eq_false_iff_not, not_lt]
        exact_mod_cast sorted_getElem_le hs hkl hj (by omega)
      · rw [hv]
        simp only [decide_eq_true_eq]
        exact_mod_cast sorted_nodup_getElem_lt hs hn hj hin1 (by omega)
    have hfind := hgen bs[j % bs.length] rfl
    rw [hcj, selectMinute_of_find_some hfind, hcj1]
    exact getElem_idx_congr (by rw [hmod, Nat.mod_eq_of_lt hin1]) hin1 hj1

theorem dNBB_snd {backlog : List Episode} (h : backlog ≠ []) (lm : Int) :
    (determineNextBacklogBatch backlog lm).2 =
      ((selectMinute (sortedBuckets backlog) lm : Nat) : Int) := by
  obtain ⟨a, l, rfl⟩ : ∃ a l, backlog = a :: l := by
    cases backlog with
    | nil => exact absurd rfl h
    | cons a l => exact ⟨a, l, rfl⟩
  rw [dNBB_cons]

theorem batchIter_formula {backlog : List Episode} (h : backlog ≠ []) (start : Int) :
    ∃ i0 : Nat, i0 < (sortedBuckets backlog).length ∧
      ∀ k : Nat, batchIter backlog start k =
        ((cyc (sortedBuckets backlog) (i0 + k) : Nat) : Int) := by
  have hbs : sortedBuckets backlog ≠ [] := sortedBuckets_ne_nil h
  obtain ⟨i0, hi0, he⟩ := List.getElem_of_mem (selectMinute_mem hbs start)
  refine ⟨i0, hi0, ?_⟩
  intro k
  induction k with
  | zero =>
    show (determineNextBacklogBatch backlog start).2 = _
    rw [dNBB_snd h]
    obtain ⟨hj, hc⟩ := cyc_eq_getElem hbs (i0 + 0)
    rw [hc]
    congr 1
    calc selectMinute (sortedBuckets backlog) start
        = (sortedBuckets backlog)[i0] := he.symm
      _ = (sortedBuckets backlog)[(i0 + 0) % (sortedBuckets backlog).length] :=
          getElem_idx_congr (by rw [Nat.add_zero, Nat.mod_eq_of_lt hi0]) hi0 hj
  | succ k ih =>
    show (determineNextBacklogBatch backlog (batchIter backlog start k)).2 = _
    rw [ih, dNBB_snd h,
      cyc_succ (sortedBuckets_sorted backlog) (sortedBuckets_nodup backlog) hbs (i0 + k)]
    rw [Nat.add_assoc]

/-- C7: for a fixed backlog, iterating the batcher with each returned
next_minute fed back as the next cursor always yields a duration bucket
of the backlog, visits every distinct bucket exactly once in any window
of n consecutive calls (n being the number of distinct buckets), and is
periodic with period n, i.e. it repeats the same cycle. -/
theorem batcher_bucket_rotation (backlog : List Episode) (start : Int)
    (h : backlog ≠ []) :
    (∀ k : Nat, ∃ m : Nat, isBucketOf backlog m ∧ batchIter backlog start k = (m : Int)) ∧
    (∀ j k : Nat, j < (sortedBuckets backlog).length → k < (sortedBuckets backlog).length →
      batchIter backlog start j = batchIter backlog start k → j = k) ∧
    (∀ m : Nat, isBucketOf backlog m →
      ∃ k : Nat, k < (sortedBuckets backlog).length ∧ batchIter backlog start k = (m : Int)) ∧
    (∀ k : Nat, batchIter backlog start (k + (sortedBuckets backlog).length) =
      batchIter backlog start k) := by
  obtain ⟨i0, hi0, hf⟩ := batchIter_formula h start
  have hbs : sortedBuckets backlog ≠ [] := sortedBuckets_ne_nil h
  have hl : 0 < (sortedBuckets backlog).length := List.length_pos.mpr hbs
  refine ⟨?_, ?_, ?_, ?_⟩
  · intro k
    exact ⟨cyc (sortedBuckets backlog) (i0 + k),
      mem_sortedBuckets.mp (cyc_mem hbs _), hf k⟩
  · intro j k hj hk he
    rw [hf j, hf k] at he
    have he2 : cyc (sortedBuckets backlog) (i0 + j) = cyc (sortedBuckets backlog) (i0 + k) := by
      exact_mod_cast he
    obtain ⟨hj1, hc1⟩ := cyc_eq_getElem hbs (i0 + j)
    obtain ⟨hk1, hc2⟩ := cyc_eq_getElem hbs (i0 + k)
    rw [hc1, hc2] at he2
    have hidx : (i0 + j) % (sortedBuckets backlog).length
        = (i0 + k) % (sortedBuckets backlog).length :=
      (List.Nodup.getElem_inj_iff (sortedBuckets_nodup backlog)).mp he2
    have hjk : j % (sortedBuckets backlog).length = k % (sortedBuckets backlog).length :=
      Nat.ModEq.add_left_cancel' i0 hidx
    rwa [Nat.mod_eq_of_lt hj, Nat.mod_eq_of_lt hk] at hjk
  · intro m hm
    obtain ⟨i, hi, hie⟩ := List.getElem_of_mem (mem_sortedBuckets.mpr hm)
    refine ⟨((sortedBuckets backlog).length + i - i0 % (sortedBuckets backlog).length)
        % (sortedBuckets backlog).length, Nat.mod_lt _ hl, ?_⟩
    rw [hf _]
    obtain ⟨hq, hc⟩ := cyc_eq_getElem hbs
      (i0 + ((sortedBuckets backlog).length + i - i0 % (sortedBuckets backlog).length)
        % (sortedBuckets backlog).length)
    rw [hc]
    have hidx : (i0 + ((sortedBuckets backlog).length + i
        - i0 % (sortedBuckets backlog).length) % (sortedBuckets backlog).length)
        % (sortedBuckets backlog).length = i := by
      rw [← Nat.mod_add_mod, Nat.add_mod_mod]
      have harith : i0 % (sortedBuckets backlog).length
          + ((sortedBuckets backlog).length + i - i0 % (sortedBuckets backlog).length)
          = i + (sortedBuckets backlog).length := by
        have := Nat.mod_lt i0 hl
        omega
      rw [harith, Nat.add_mod_right, Nat.mod_eq_of_lt hi]
    rw [getElem_idx_congr hidx hq hi, hie]
  · intro k
    rw [hf k, hf (k + (sortedBuckets backlog).length)]
    have harr : i0 + (k + (sortedBuckets backlog).length)
        = (i0 + k) + (sortedBuckets backlog).length := by omega
    rw [harr]
    unfold cyc
    rw [Nat.add_mod_right]

/-- Witness for C7: the scenario backlog, starting from cursor -1. -/
theorem batcher_bucket_rotation_witness :
    ([epA, epB] : List Episode) ≠ [] ∧
    (∀ k : Nat, batchIter [epA, epB] (-1) (k + (sortedBuckets [epA, epB]).length) =
      batchIter [epA, epB] (-1) k) :=
  ⟨by decide, (batcher_bucket_rotation [epA, epB] (-1) (by decide)).2.2.2⟩

/-! Lemmas about the episode classifier. -/

theorem processPage_flat (ls : Option String) :
    ∀ (page rest : List (Option Episode)) (acc : List Episode) (cnt : Nat),
      processFlatAux ls (page ++ rest) acc cnt =
        match processPage ls page acc cnt with
        | .error e => .error e
        | .ok (a, c, true) => .ok (a, c)
        | .ok (a, c, false) => processFlatAux ls rest a c := by
  intro page
  induction page with
  | nil => intro rest acc cnt; rfl
  | cons it p ih =>
    intro rest acc cnt
    cases it with
    | none => rfl
    | some ep =>
      by_cases h1 : (ls == some ep.id) = true
      · simp [processPage, processFlatAux, h1]
      · by_cases h2 : ep.fully_played
        · simp [processPage, processFlatAux, h1, h2, ih]
        · by_cases h3 : isBlocklisted ep.name
          · simp [processPage, processFlatAux, h1, h2, h3, ih]
          · simp [processPage, processFlatAux, h1, h2, h3, ih]

theorem processPages_flat (ls : Option String) :
    ∀ (pages : List (List (Option Episode))) (acc : List Episode) (cnt : Nat),
      processPagesAux ls pages acc cnt = processFlatAux ls pages.flatten acc cnt := by
  intro pages
  induction pages with
  | nil => intro acc cnt; rfl
  | cons page rest ih =>
    intro acc cnt
    rw [List.flatten_cons, processPage_flat]
    cases hp : processPage ls page acc cnt with
    | error e => simp [processPagesAux, hp]
    | ok t =>
      obtain ⟨a, c, b⟩ := t
      cases b
      · simp [processPagesAux, hp, ih]
      · simp [processPagesAux, hp]

theorem processFlatAux_ok (ls : Option String) :
    ∀ (flat : List (Option Episode)) (acc : List Episode) (cnt : Nat)
      (res : List Episode) (c : Nat),
      processFlatAux ls flat acc cnt = .ok (res, c) →
      res = acc ++ (flat.takeWhile (fun it => !isMark ls it)).filterMap keepItem := by
  intro flat
  induction flat with
  | nil =>
    intro acc cnt res c h
    simp [processFlatAux] at h
    simp [h.1]
  | cons it rest ih =>
    intro acc cnt res c h
    cases it with
    | none => simp [processFlatAux] at h
    | some ep =>
      by_cases h1 : (ls == some ep.id) = true
      · simp only [processFlatAux, h1, if_pos] at h
        simp only [Except.ok.injEq, Prod.mk.injEq] at h
        simp [List.takeWhile_cons, isMark, h1, h.1]
      · by_cases h2 : ep.fully_played
        · simp only [processFlatAux, h1, h2, if_neg, if_pos, Bool.false_eq_true,
            not_false_iff] at h
          have := ih _ _ _ _ h
          simp [List.takeWhile_cons, isMark, h1, keepItem, h2, this]
        · by_cases h3 : isBlocklisted ep.name
          · simp only [processFlatAux, h1, h2, h3, if_neg, if_pos, Bool.false_eq_true,
              not_false_iff] at h
            have := ih _ _ _ _ h
            simp [List.takeWhile_cons, isMark, h1, keepItem, h2, h3, this]
          · simp only [processFlatAux, h1, h2, h3, if_neg, Bool.false_eq_true,
              not_false_iff] at h
            have := ih _ _ _ _ h
            simp [List.takeWhile_cons, isMark, h1, keepItem, h2, h3, this]

theorem processFlatAux_err (ls : Option String) :
    ∀ (pre post : List (Option Episode)) (acc : List Episode) (cnt : Nat),
      (∀ it ∈ pre, isMark ls it = false) →
      processFlatAux ls (pre ++ none :: post) acc cnt = .error () := by
  intro pre
  induction pre with
  | nil => intro post acc cnt _; rfl
  | cons it p ih =>
    intro post acc cnt h
    cases it with
    | none => rfl
    | some ep =>
      have hm : isMark ls (some ep) = false := h _ (List.mem_cons_self _ _)
      have h1 : (ls == some ep.id) = false := by simpa [isMark] using hm
      have hrest : ∀ x ∈ p, isMark ls x = false :=
        fun x hx => h x (List.mem_cons_of_mem _ hx)
      by_cases h2 : ep.fully_played
      · simp only [List.cons_append, processFlatAux, h1, h2, Bool.false_eq_true,
          if_neg, if_pos, not_false_iff]
        exact ih post _ _ hrest
      · by_cases h3 : isBlocklisted ep.name
        · simp only [List.cons_append, processFlatAux, h1, h2, h3, Bool.false_eq_true,
            if_neg, if_pos, not_false_iff]
          exact ih post _ _ hrest
        · simp only [List.cons_append, processFlatAux, h1, h2, h3, Bool.false_eq_true,
            if_neg, not_false_iff]
          exact ih post _ _ hrest

theorem keepItem_eq_some {it : Option Episode} {ep : Episode} (h : keepItem it = some ep) :
    it = some ep ∧ ep.fully_played = false ∧ isBlocklisted ep.name = false := by
  cases it with
  | none => simp [keepItem] at h
  | some e =>
    by_cases h2 : e.fully_played
    · simp [keepItem, h2] at h
    · by_cases h3 : isBlocklisted e.name
      · simp [keepItem, h2, h3] at h
      · simp [keepItem, h2, h3] at h
        subst h
        refine ⟨rfl, ?_, ?_⟩
        · revert h2; cases e.fully_played <;> simp
        · revert h3; cases isBlocklisted e.name <;> simp

theorem lookupA_updateA (m : List (String × String)) (k v : String) :
    lookupA (updateA m k v) k = some v := by
  induction m with
  | nil => simp [updateA, lookupA]
  | cons p rest ih =>
    by_cases h : (p.1 == k) = true
    · simp [updateA, h, lookupA]
    · simp only [updateA, h, Bool.false_eq_true, if_neg, not_false_iff]
      show lookupA (p :: updateA rest k v) k = some v
      unfold lookupA
      rw [List.find?_cons_of_neg _ (by simp [h])]
      exact ih

theorem head?_mem {l : List Episode} {ep : Episode} (h : l.head? = some ep) : ep ∈ l := by
  cases l with
  | nil => simp at h
  | cons a t =>
    have ha : a = ep := by simpa using h
    rw [← ha]
    exact List.mem_cons_self _ _

theorem processEpisodesForShow_ok {showId : String} {pages : List (List (Option Episode))}
    {st : UserState} {found : List Episode} {cnt : Nat} {st' : UserState}
    (h : processEpisodesForShow showId pages st = .ok (found, cnt, st')) :
    processPagesAux (lookupA st.show_progress showId) pages [] 0 = .ok (found, cnt) ∧
    st' = (match found.head? with
           | some ep => { st with show_progress := updateA st.show_progress showId ep.id }
           | none => st) := by
  unfold processEpisodesForShow at h
  dsimp only at h
  cases hp : processPagesAux (lookupA st.show_progress showId) pages [] 0 with
  | error e =>
    rw [hp] at h
    exact absurd h (by simp)
  | ok t =>
    obtain ⟨f, c⟩ := t
    rw [hp] at h
    dsimp only at h
    simp only [Except.ok.injEq, Prod.mk.injEq] at h
    obtain ⟨hf, hc, hs⟩ := h
    subst hf
    subst hc
    exact ⟨rfl, hs.symm⟩

/-- C4: every episode returned by the classifier lies strictly before
the first feed occurrence of the stored high-water-mark episode (it is
a member of the prefix of the flattened feed cut at that mark), is not
flagged fully played, and is not blocklisted. -/
theorem classifier_filters_output (showId : String) (pages : List (List (Option Episode)))
    (st : UserState) (found : List Episode) (cnt : Nat) (st' : UserState)
    (h : processEpisodesForShow showId pages st = .ok (found, cnt, st')) :
    (∀ ep ∈ found, ep.fully_played = false) ∧
    (∀ ep ∈ found, isBlocklisted ep.name = false) ∧
    (∀ ep ∈ found, some ep ∈ pages.flatten.takeWhile
        (fun it => !isMark (lookupA st.show_progress showId) it)) := by
  obtain ⟨hp, _⟩ := processEpisodesForShow_ok h
  rw [processPages_flat] at hp
  have hres := processFlatAux_ok _ _ _ _ _ _ hp
  simp only [List.nil_append] at hres
  subst hres
  refine ⟨?_, ?_, ?_⟩
  · intro ep hmem
    obtain ⟨it, hit, hkeep⟩ := List.mem_filterMap.mp hmem
    exact (keepItem_eq_some hkeep).2.1
  · intro ep hmem
    obtain ⟨it, hit, hkeep⟩ := List.mem_filterMap.mp hmem
    exact (keepItem_eq_some hkeep).2.2
  · intro ep hmem
    obtain ⟨it, hit, hkeep⟩ := List.mem_filterMap.mp hmem
    have h1 := (keepItem_eq_some hkeep).1
    rw [h1] at hit
    exact hit

/-- Witness for C4: on a feed with one ordinary and one blocklisted
episode, the returned episode is neither played nor blocklisted. -/
theorem classifier_filters_output_witness :
    epOne.fully_played = false ∧ isBlocklisted epOne.name = false :=
  ⟨(classifier_filters_output "s1" [[some epOne, some epTrailer]] stEmpty [epOne] 1 stS1
      (by decide)).1 epOne (by decide),
   (classifier_filters_output "s1" [[some epOne, some epTrailer]] stEmpty [epOne] 1 stS1
      (by decide)).2.1 epOne (by decide)⟩

/-- C5 counterexample: a feed whose only (hence newest) encountered
episode is blocklisted yields an empty result list, and the stored
high-water mark is left unchanged (absent), not advanced to the newest
encountered episode epTrailer. -/
theorem hwm_no_advance_cex :
    processEpisodesForShow "s3" [[some epTrailer]] stEmpty = .ok ([], 0, stEmpty) ∧
    lookupA stEmpty.show_progress "s3" ≠ some epTrailer.id := by
  exact ⟨by decide, by decide⟩

/-- C5 amended: after a scan the high-water mark is advanced to the id
of the newest episode that survived the filters (the first element of
the returned list) whenever at least one episode survived; when every
encountered episode was filtered out (empty returned list) the mark and
the whole state are left unchanged. -/
theorem hwm_tracks_survivors (showId : String) (pages : List (List (Option Episode)))
    (st : UserState) (found : List Episode) (cnt : Nat) (st' : UserState)
    (h : processEpisodesForShow showId pages st = .ok (found, cnt, st')) :
    (found = [] → st' = st) ∧
    (∀ ep : Episode, found.head? = some ep →
      lookupA st'.show_progress showId = some ep.id ∧ some ep ∈ pages.flatten) := by
  obtain ⟨hp, hs⟩ := processEpisodesForShow_ok h
  constructor
  · intro hempty
    subst hempty
    simpa using hs
  · intro ep hhead
    rw [hhead] at hs
    constructor
    · rw [hs]
      exact lookupA_updateA _ _ _
    · have hmem : ep ∈ found := head?_mem hhead
      rw [processPages_flat] at hp
      have hres := processFlatAux_ok _ _ _ _ _ _ hp
      simp only [List.nil_append] at hres
      rw [hres] at hmem
      obtain ⟨it, hit, hkeep⟩ := List.mem_filterMap.mp hmem
      have h1 := (keepItem_eq_some hkeep).1
      rw [h1] at hit
      exact (List.takeWhile_sublist _).mem hit

/-- Witness for C5's amended statement on the concrete two-item feed:
the mark advances to the surviving head episode. -/
theorem hwm_tracks_survivors_witness :
    lookupA stS1.show_progress "s1" = some epOne.id ∧
    some epOne ∈ ([[some epOne, some epTrailer]] : List (List (Option Episode))).flatten :=
  (hwm_tracks_survivors "s1" [[some epOne, some epTrailer]] stEmpty [epOne] 1 stS1
    (by decide)).2 epOne (by decide)

/-- C8 counterexample: a page consisting of a null entry makes the scan
raise instead of skipping it: the show scan returns the error outcome,
not a successful (skipping) one. -/
theorem scan_null_skip_cex :
    processEpisodesForShow "s2" [[none]] stEmpty = .error () := by
  exact (by decide)

/-- C8 amended: the scan does not skip null entries.  Whenever the
flattened feed contains a null entry that is reached (no high-water-mark
hit strictly before it), the show scan raises, and the orchestrator
turns this into a failed run. -/
theorem scan_null_entry_aborts (showId : String) (pages : List (List (Option Episode)))
    (st : UserState) (pre post : List (Option Episode))
    (hflat : pages.flatten = pre ++ none :: post)
    (hpre : ∀ it ∈ pre, isMark (lookupA st.show_progress showId) it = false) :
    processEpisodesForShow showId pages st = .error () := by
  unfold processEpisodesForShow
  dsimp only
  rw [processPages_flat, hflat, processFlatAux_err _ _ _ _ _ hpre]

/-- Witness for C8's amended statement: a null entry behind one ordinary
episode still aborts the scan. -/
theorem scan_null_entry_aborts_witness :
    processEpisodesForShow "s2" [[some epOne, none]] stEmpty = .error () :=
  scan_null_entry_aborts "s2" [[some epOne, none]] stEmpty [some epOne] []
    (by decide) (by decide)

/-! Lemmas about the catalog scanner and the orchestrator. -/

theorem processEpisodesForShow_fields {showId : String}
    {pages : List (List (Option Episode))} {st : UserState} {found : List Episode}
    {cnt : Nat} {st' : UserState}
    (h : processEpisodesForShow showId pages st = .ok (found, cnt, st')) :
    st'.current_minute = st.current_minute ∧ st'.last_update_ts = st.last_update_ts ∧
    st'.completed_shows = st.completed_shows := by
  obtain ⟨_, hs⟩ := processEpisodesForShow_ok h
  cases hh : found.head? with
  | none =>
    rw [hh] at hs
    simp [hs]
  | some ep =>
    rw [hh] at hs
    subst hs
    exact ⟨rfl, rfl, rfl⟩

theorem scanStepState_fields (s : Show) (st1 : UserState) (cnt : Nat) :
    (scanStepState s st1 cnt).current_minute = st1.current_minute ∧
    (scanStepState s st1 cnt).last_update_ts = st1.last_update_ts ∧
    (scanStepState s st1 cnt).show_progress = st1.show_progress := by
  unfold scanStepState
  by_cases h : (cnt = 0 ∧ 0 < s.total_episodes) <;> simp [h]

theorem scanAux_error_fields (lu : Int) (c t : Int) :
    ∀ (shows : List Show) (i : Nat) (st pers : UserState) (prio back : List Episode),
      st.current_minute = c → st.last_update_ts = t →
      pers.current_minute = c → pers.last_update_ts = t →
      ∀ p : UserState, scanAllShowsAux lu shows i st pers prio back = .error p →
        p.current_minute = c ∧ p.last_update_ts = t := by
  intro shows
  induction shows with
  | nil =>
    intro i st pers prio back _ _ _ _ p h
    simp [scanAllShowsAux] at h
  | cons s rest ih =>
    intro i st pers prio back hst1 hst2 hp1 hp2 p h
    simp only [scanAllShowsAux] at h
    by_cases hc : (lookupA st.completed_shows s.id).isSome = true
    · rw [if_pos hc] at h
      exact ih (i + 1) st pers prio back hst1 hst2 hp1 hp2 p h
    · rw [if_neg hc] at h
      cases hps : processEpisodesForShow s.id s.pages st with
      | error e =>
        rw [hps] at h
        have hp : pers = p := by
          simpa using h
        rw [← hp]
        exact ⟨hp1, hp2⟩
      | ok tr =>
        obtain ⟨found, cnt, st1⟩ := tr
        rw [hps] at h
        dsimp only at h
        obtain ⟨f1, f2, _⟩ := processEpisodesForShow_fields hps
        obtain ⟨g1, g2, _⟩ := scanStepState_fields s st1 cnt
        by_cases h10 : i % 10 = 0
        · rw [if_pos h10] at h
          exact ih (i + 1) _ _ _ _ (by rw [g1, f1, hst1]) (by rw [g2, f2, hst2])
            (by rw [g1, f1, hst1]) (by rw [g2, f2, hst2]) p h
        · rw [if_neg h10] at h
          exact ih (i + 1) _ _ _ _ (by rw [g1, f1, hst1]) (by rw [g2, f2, hst2])
            hp1 hp2 p h

theorem scanAux_split (lu : Int) :
    ∀ (shows : List Show) (i : Nat) (st pers : UserState) (prio back : List Episode)
      (prS baS : List Episode) (stF perF : UserState),
      scanAllShowsAux lu shows i st pers prio back = .ok (prS, baS, stF, perF) →
      prS = prio ++ (classifiedEpisodesAux shows st).filter
        (fun e => decide (lu < e.release_ts)) ∧
      baS = back ++ (classifiedEpisodesAux shows st).filter
        (fun e => !decide (lu < e.release_ts)) := by
  intro shows
  induction shows with
  | nil =>
    intro i st pers prio back prS baS stF perF h
    simp only [scanAllShowsAux, Except.ok.injEq, Prod.mk.injEq] at h
    constructor <;> simp [classifiedEpisodesAux, ← h.1, ← h.2.1]
  | cons s rest ih =>
    intro i st pers prio back prS baS stF perF h
    simp only [scanAllShowsAux] at h
    by_cases hc : (lookupA st.completed_shows s.id).isSome = true
    · rw [if_pos hc] at h
      have hres := ih _ _ _ _ _ _ _ _ _ h
      have hcl : classifiedEpisodesAux (s :: rest) st = classifiedEpisodesAux rest st := by
        simp only [classifiedEpisodesAux]
        rw [if_pos hc]
      rw [hcl]
      exact hres
    · rw [if_neg hc] at h
      cases hps : processEpisodesForShow s.id s.pages st with
      | error e =>
        rw [hps] at h
        exact absurd h (by simp)
      | ok tr =>
        obtain ⟨found, cnt, st1⟩ := tr
        rw [hps] at h
        dsimp only at h
        obtain ⟨he1, he2⟩ := ih _ _ _ _ _ _ _ _ _ h
        have hcl : classifiedEpisodesAux (s :: rest) st
            = found ++ classifiedEpisodesAux rest (scanStepState s st1 cnt) := by
          simp only [classifiedEpisodesAux]
          rw [if_neg hc, hps]
        rw [hcl]
        constructor
        · rw [he1, List.filter_append, List.append_assoc]
        · rw [he2, List.filter_append, List.append_assoc]

/-- C6: on a successful scan, the priority list is exactly the episodes
the classifier returned whose release instant is strictly after the
stored last-update instant, and the backlog list is exactly the
remaining classifier-returned episodes: every classified episode is
placed in exactly one of the two lists, and membership follows the
strict-comparison rule in both directions. -/
theorem scan_priority_backlog_split (shows : List Show) (st : UserState) (lu : Int)
    (prio back : List Episode) (stF persF : UserState)
    (h : scanAllShows shows st lu = .ok (prio, back, stF, persF)) :
    (∀ ep ∈ prio, lu < ep.release_ts) ∧
    (∀ ep ∈ back, ¬ lu < ep.release_ts) ∧
    prio = (classifiedEpisodes shows st).filter (fun e => decide (lu < e.release_ts)) ∧
    back = (classifiedEpisodes shows st).filter (fun e => !decide (lu < e.release_ts)) := by
  obtain ⟨h1, h2⟩ := scanAux_split lu shows 0 st st [] [] prio back stF persF h
  simp only [List.nil_append] at h1 h2
  refine ⟨?_, ?_, h1, h2⟩
  · intro ep hep
    rw [h1] at hep
    simpa using (List.mem_filter.mp hep).2
  · intro ep hep
    rw [h2] at hep
    simpa using (List.mem_filter.mp hep).2

/-- Witness for C6 on a one-show catalog whose episode is newer than the
stored instant: the classified episodes are exactly [epOne] and the
split places it in priority. -/
theorem scan_priority_backlog_split_witness :
    ((0 : Int) < epOne.release_ts) ∧
    [epOne] = (classifiedEpisodes [showOne] stEmpty).filter
      (fun e => decide ((0 : Int) < e.release_ts)) ∧
    ([] : List Episode) = (classifiedEpisodes [showOne] stEmpty).filter
      (fun e => !decide ((0 : Int) < e.release_ts)) := by
  have h := scan_priority_backlog_split [showOne] stEmpty 0 [epOne] [] stS1 stS1 (by decide)
  exact ⟨h.1 epOne (by decide), h.2.2.1, h.2.2.2⟩

/-- C3 counterexample: a run over two shows whose second feed page holds
a null entry fails mid-scan, yet the persisted state (written by the
intermediary save after the first show, src/app.py lines 216-218)
carries the first show's advanced high-water mark: the persisted
show_progress differs from its pre-run value. -/
theorem run_error_partial_persist_cex :
    runUpdateTask [showOne, showBad] stEmpty 99 = RunOutcome.failure stS1 ∧
    stS1.show_progress ≠ stEmpty.show_progress := by
  exact ⟨by decide, by decide⟩

/-- C3 amended: a run that fails mid-scan leaves the persisted
current_minute and last_update_timestamp exactly at their pre-run
values (they are only written on the success path); the persisted
show_progress and completed_shows, however, may have advanced through
the every-ten-shows checkpoint save. -/
theorem run_error_preserves_cursor (shows : List Show) (st0 : UserState) (now : Int)
    (p : UserState) (h : runUpdateTask shows st0 now = .failure p) :
    p.current_minute = st0.current_minute ∧ p.last_update_ts = st0.last_update_ts := by
  cases shows with
  | nil => simp [runUpdateTask] at h
  | cons s rest =>
    simp only [runUpdateTask] at h
    cases hscan : scanAllShows (s :: rest) st0 st0.last_update_ts with
    | error pers =>
      rw [hscan] at h
      have hp : pers = p := by simpa using h
      unfold scanAllShows at hscan
      have := scanAux_error_fields st0.last_update_ts st0.current_minute st0.last_update_ts
        (s :: rest) 0 st0 st0 [] [] rfl rfl rfl rfl pers hscan
      rw [← hp]
      exact this
    | ok tr =>
      obtain ⟨prio, back, st1, pers⟩ := tr
      rw [hscan] at h
      simp at h

/-- Witness for C3's amended statement at the concrete failing run. -/
theorem run_error_preserves_cursor_witness :
    stS1.current_minute = stEmpty.current_minute ∧
    stS1.last_update_ts = stEmpty.last_update_ts :=
  run_error_preserves_cursor [showOne, showBad] stEmpty 99 stS1 (by decide)

/-- C10: when a run's scan succeeds with an empty priority list and the
batcher returns an empty batch, the orchestrator issues no playlist
action at all (neither the clear nor any append), and still finishes as
a successful run whose persisted state carries the batcher's returned
cursor as current_minute and the completion instant as
last_update_timestamp. -/
theorem empty_run_no_playlist_mutation (shows : List Show) (st0 : UserState) (now : Int)
    (prio back : List Episode) (st1 pers : UserState)
    (hne : shows ≠ [])
    (hscan : scanAllShows shows st0 st0.last_update_ts = .ok (prio, back, st1, pers))
    (hprio : prio = [])
    (hbatch : (determineNextBacklogBatch back st1.current_minute).1 = []) :
    runUpdateTask shows st0 now = .success []
      { st1 with current_minute := (determineNextBacklogBatch back st1.current_minute).2,
                 last_update_ts := now } := by
  obtain ⟨s, rest, rfl⟩ : ∃ s rest, shows = s :: rest := by
    cases shows with
    | nil => exact absurd rfl hne
    | cons s rest => exact ⟨s, rest, rfl⟩
  subst hprio
  simp only [runUpdateTask]
  rw [hscan]
  simp [sortByDuration, hbatch]

/-- Witness for C10: a catalog whose only show has one blocklisted
episode produces no URIs; the run issues no playlist action and saves
state with the wrapped cursor and the new timestamp. -/
theorem empty_run_no_playlist_mutation_witness :
    runUpdateTask [showTrailerOnly] stEmpty 99 = RunOutcome.success []
      { stCompleted with
          current_minute := (determineNextBacklogBatch [] stCompleted.current_minute).2,
          last_update_ts := 99 } :=
  empty_run_no_playlist_mutation [showTrailerOnly] stEmpty 99 [] [] stCompleted stCompleted
    (by decide) (by decide) rfl (by decide)

/-! Lemmas about extract_item_id. -/

theorem mem_of_isPrefixOf {l1 l2 : List Char} {a : Char}
    (h : l1.isPrefixOf l2 = true) (ha : a ∈ l1) : a ∈ l2 := by
  induction l1 generalizing l2 with
  | nil => simp at ha
  | cons x xs ih =>
    cases l2 with
    | nil => simp [List.isPrefixOf] at h
    | cons y ys =>
      simp only [List.isPrefixOf, Bool.and_eq_true, beq_iff_eq] at h
      rcases List.mem_cons.mp ha with h1 | h1
      · subst h1
        rw [h.1]
        exact List.mem_cons_self _ _
      · exact List.mem_cons_of_mem _ (ih h.2 h1)

theorem searchGroup2_of_all_alnum :
    ∀ cs : List Char, cs.all isAlnumChar = true → searchGroup2 cs = none := by
  intro cs
  induction cs with
  | nil => intro _; rfl
  | cons c rest ih =>
    intro h
    have hall := List.all_eq_true.mp h
    have hm : matchAltAt (c :: rest) = none := by
      unfold matchAltAt
      cases hf : ALT_WORDS.find? (fun w => (w ++ ['/']).isPrefixOf (c :: rest)) with
      | none => rfl
      | some w =>
        exfalso
        have hpre := List.find?_some hf
        have hmem : '/' ∈ c :: rest := mem_of_isPrefixOf hpre (by simp)
        have := hall '/' hmem
        exact absurd this (by decide)
    simp only [searchGroup2, hm]
    exact ih (List.all_eq_true.mpr fun x hx => hall x (List.mem_cons_of_mem _ hx))

theorem searchGroup2_none_iff :
    ∀ cs : List Char, searchGroup2 cs = none ↔
      ∀ i, i < cs.length → segAt (cs.drop i) = false := by
  intro cs
  induction cs with
  | nil => simp [searchGroup2]
  | cons c rest ih =>
    constructor
    · intro h i hi
      cases i with
      | zero =>
        simp only [List.drop_zero]
        unfold searchGroup2 at h
        cases hm : matchAltAt (c :: rest) with
        | none => simp [segAt, hm]
        | some rem =>
          rw [hm] at h
          dsimp only at h
          by_cases he : (rem.takeWhile isAlnumChar).isEmpty
          · simp [segAt, hm, he]
          · rw [if_neg he] at h
            simp at h
      | succ n =>
        have hrest : searchGroup2 rest = none := by
          unfold searchGroup2 at h
          cases hm : matchAltAt (c :: rest) with
          | none =>
            rw [hm] at h
            exact h
          | some rem =>
            rw [hm] at h
            dsimp only at h
            by_cases he : (rem.takeWhile isAlnumChar).isEmpty
            · rw [if_pos he] at h
              exact h
            · rw [if_neg he] at h
              simp at h
        have := (ih.mp hrest) n (by simpa using hi)
        simpa using this
    · intro h
      unfold searchGroup2
      cases hm : matchAltAt (c :: rest) with
      | none =>
        exact ih.mpr fun i hi => by simpa using h (i + 1) (by simpa)
      | some rem =>
        have h0 : (rem.takeWhile isAlnumChar).isEmpty = true := by
          simpa [segAt, hm] using h 0 (by simp)
        dsimp only
        rw [if_pos h0]
        exact ih.mpr fun i hi => by simpa using h (i + 1) (by simpa)

theorem alnum_toNat_range {c : Char} (h : isAlnumChar c = true) :
    48 ≤ c.toNat ∧ c.toNat ≤ 122 := by
  simp only [isAlnumChar, Bool.or_eq_true, Bool.and_eq_true, decide_eq_true_eq,
    or_assoc] at h
  rcases h with ⟨h1, h2⟩ | ⟨h1, h2⟩ | ⟨h1, h2⟩ <;> rw [Char.le_def] at h1 h2
  · have a1 : 97 ≤ c.toNat := h1
    have a2 : c.toNat ≤ 122 := h2
    omega
  · have a1 : 65 ≤ c.toNat := h1
    have a2 : c.toNat ≤ 90 := h2
    omega
  · have a1 : 48 ≤ c.toNat := h1
    have a2 : c.toNat ≤ 57 := h2
    omega

theorem not_ws_of_alnum {c : Char} (h : isAlnumChar c = true) : pyWhitespace c = false := by
  obtain ⟨hlo, hhi⟩ := alnum_toNat_range h
  cases hw : pyWhitespace c
  · rfl
  · exfalso
    simp only [pyWhitespace, Bool.or_eq_true, Bool.and_eq_true, decide_eq_true_eq,
      beq_iff_eq, or_assoc] at hw
    rcases hw with ⟨h1, h2⟩ | h1 | ⟨h1, h2⟩ | h1 | h1 | h1 | ⟨h1, h2⟩ | h1 | h1 | h1 | h1 | h1
      <;> omega

theorem dropWhile_noop {p : Char → Bool} :
    ∀ l : List Char, (∀ x ∈ l, p x = false) → l.dropWhile p = l := by
  intro l h
  cases l with
  | nil => rfl
  | cons a t =>
    rw [List.dropWhile_cons, if_neg (by simp [h a (List.mem_cons_self _ _)])]

theorem pyStrip_of_all_alnum {cs : List Char} (h : cs.all isAlnumChar = true) :
    pyStrip cs = cs := by
  have hall := List.all_eq_true.mp h
  have h1 : cs.dropWhile pyWhitespace = cs :=
    dropWhile_noop cs fun x hx => not_ws_of_alnum (hall x hx)
  unfold pyStrip
  rw [h1]
  have h2 : cs.reverse.dropWhile pyWhitespace = cs.reverse :=
    dropWhile_noop _ fun x hx => not_ws_of_alnum (hall x (List.mem_reverse.mp hx))
  rw [h2, List.reverse_reverse]

/-- C9 counterexample: this full URL contains the segment
/playlist/ABC123, yet extract_item_id returns Q1, because the search
regex matches the leftmost catalog segment, here show/Q1. -/
theorem extract_item_id_first_match_cex :
    isSubstrOf ("/playlist/ABC123".data) ("https://x.com/show/Q1/playlist/ABC123".data)
      = true ∧
    extract_item_id "https://x.com/show/Q1/playlist/ABC123" = some "Q1" := by
  exact ⟨by decide, by decide⟩

/-- C9 amended: extract_item_id returns the alphanumeric run following
the leftmost (playlist|show|episode)/ segment of the text, so the
canonical playlist URL yields its playlist ID; a bare non-empty
alphanumeric token is returned unchanged; and text with no catalog
segment that does not strip to a bare alphanumeric token yields none. -/
theorem extract_item_id_behavior :
    extract_item_id "https://open.spotify.com/playlist/ABC123" = some "ABC123" ∧
    (∀ s : String, s.data ≠ [] → s.data.all isAlnumChar = true →
      extract_item_id s = some s) ∧
    (∀ s : String, (∀ i, i < s.data.length → segAt (s.data.drop i) = false) →
      ((pyStrip s.data).isEmpty = true ∨ (pyStrip s.data).all isAlnumChar = false) →
      extract_item_id s = none) := by
  refine ⟨by decide, ?_, ?_⟩
  · intro s hne hall
    unfold extract_item_id
    rw [searchGroup2_of_all_alnum _ hall]
    dsimp only
    rw [pyStrip_of_all_alnum hall, if_pos]
    case hc => simp [hall, List.isEmpty_iff, hne]
  · intro s hseg hbad
    unfold extract_item_id
    rw [(searchGroup2_none_iff s.data).mpr hseg]
    dsimp only
    rcases hbad with hb | hb
    · rw [if_neg (by simp [hb])]
    · rw [if_neg (by simp [hb])]

/-- Witness for C9's amended statement at concrete inputs: a bare token
and an unparseable text. -/
theorem extract_item_id_behavior_witness :
    extract_item_id "ABC123" = some "ABC123" ∧ extract_item_id "???" = none :=
  ⟨extract_item_id_behavior.2.1 "ABC123" (by decide) (by decide),
   extract_item_id_behavior.2.2 "???" (by decide) (by decide)⟩
